import Mathlib

/-!
Shallow embedding of the playback core of the C_Flex repository
(`src/Flex/audio_service.py`, class `AudioService`), with theorems about
its documented behaviour.

External collaborators (the pydub decoder, the PyAudio device, the OS
directory listing, and `random.choice`) are modelled as explicit inputs:
the decoder result is an `Option Decoded` (`none` = the decode raised),
device open is a `Bool` success flag, the directory listing is an
`Option (List String)` (`none` = `os.listdir` raised), and a random pick
is an arbitrary index supplied by the environment.

Python floats are modelled as exact rationals (`ℚ`); machine integers as
`Nat`/`Int`.  NumPy's float32 conversion of a 24-bit sample is exact for
every value in [-2^23, 2^23-1] (the float32 mantissa covers ±2^24), so the
24-bit converter is modelled as its `Int` result.
-/

namespace Flex

/-- Mutable state of `AudioService` (src/Flex/audio_service.py, `__init__`),
restricted to the fields the verified behaviour touches.  `float_data` is
abstracted by `total_frames` (the callback's playhead arithmetic only uses
the frame count); `audio_stream_open` models whether `self.audio_stream`
is a live stream object; `has_track_finished_callback` models whether
`self.track_finished_callback` is set (truthy). -/
structure AudioState where
  current_file : Option String
  is_playing : Bool
  is_paused : Bool
  shuffle_enabled : Bool
  current_folder : Option String
  playlist : List String
  current_track_index : Nat
  auto_advance : Bool
  has_track_finished_callback : Bool
  callback_stop_event : Bool
  volume : Int
  duration_s : ℚ
  frame_rate : Nat
  channels : Nat
  sample_width : Nat
  bytes_per_frame : Nat
  total_frames : Nat
  playhead_frames : Nat
  visualizer_data : List ℚ
  audio_stream_open : Bool
  deriving DecidableEq, Repr

/-- The state built by `AudioService.__init__` (defaults: volume 50,
44100 Hz stereo 16-bit, empty playlist, 50-entry zero visualizer). -/
def initialState : AudioState :=
  { current_file := none
    is_playing := false
    is_paused := false
    shuffle_enabled := false
    current_folder := none
    playlist := []
    current_track_index := 0
    auto_advance := true
    has_track_finished_callback := false
    callback_stop_event := false
    volume := 50
    duration_s := 0
    frame_rate := 44100
    channels := 2
    sample_width := 2
    bytes_per_frame := 4
    total_frames := 0
    playhead_frames := 0
    visualizer_data := List.replicate 50 0
    audio_stream_open := false }

/-- `AudioService.stop` (audio_service.py lines 182-204): if playing or
paused, sets the callback stop event, stops/closes the stream, clears the
playing/paused flags and zeroes the 50-entry visualizer buffer under the
lock; otherwise does nothing.  It does not touch `playhead_frames`. -/
def stop (s : AudioState) : AudioState :=
  if s.is_playing || s.is_paused then
    { s with
      callback_stop_event := true
      audio_stream_open := false
      is_playing := false
      is_paused := false
      visualizer_data := List.replicate 50 0 }
  else s

/-- `AudioService.pause` (lines 206-213): toggles the paused flag while
playing. -/
def pause (s : AudioState) : AudioState :=
  if s.is_playing then { s with is_paused := !s.is_paused } else s

/-- `AudioService.set_volume` (lines 215-223):
`self.volume = max(0, min(200, volume))`. -/
def set_volume (s : AudioState) (volume : Int) : AudioState :=
  { s with volume := max 0 (min 200 volume) }

/-- `AudioService.get_playback_position` (lines 225-232). -/
def get_playback_position (s : AudioState) : ℚ :=
  if !s.is_playing && !s.is_paused then 0
  else (s.playhead_frames : ℚ) / (s.frame_rate : ℚ)

/-- `AudioService.set_track_finished_callback` (lines 684-686), abstracted
to whether a callback is registered. -/
def set_track_finished_callback (s : AudioState) (registered : Bool) : AudioState :=
  { s with has_track_finished_callback := registered }

/-- `AudioService.toggle_shuffle` (lines 609-613). -/
def toggle_shuffle (s : AudioState) : Bool × AudioState :=
  (!s.shuffle_enabled, { s with shuffle_enabled := !s.shuffle_enabled })

/-- The extension filter in `set_playlist_from_folder` (line 625):
`file.lower().endswith(('.mp3', '.wav', '.flac', '.m4a', '.ogg'))`. -/
def isAudioFile (file : String) : Bool :=
  let lower := file.toLower
  lower.endsWith ".mp3" || lower.endsWith ".wav" || lower.endsWith ".flac" ||
    lower.endsWith ".m4a" || lower.endsWith ".ogg"

/-- `os.path.join(folder_path, file)`, modelled with a `/` separator. -/
def joinPath (folder file : String) : String := folder ++ "/" ++ file

/-- `AudioService.set_playlist_from_folder` (lines 615-640).  `folder`
models `os.path.dirname(file_path)`; `listing` models the result of
`os.listdir(folder_path)` (`none` = it raised).  On an unchanged folder
nothing happens; on a listing failure the playlist becomes
`[file_path]` with index 0 (the folder is already recorded). -/
def set_playlist_from_folder (s : AudioState) (file_path folder : String)
    (listing : Option (List String)) : AudioState :=
  if some folder ≠ s.current_folder then
    match listing with
    | some files =>
      let playlist :=
        (((files.filter isAudioFile).map (joinPath folder)).mergeSort (· ≤ ·))
      let idx := if playlist.contains file_path then playlist.indexOf file_path else 0
      { s with current_folder := some folder, playlist := playlist,
               current_track_index := idx }
    | none =>
      { s with current_folder := some folder, playlist := [file_path],
               current_track_index := 0 }
  else s

/-- The metadata `load_and_play` reads off the decoded `AudioSegment`:
channel count, frame rate, sample width (bytes), duration in
milliseconds (`len(audio_segment)`), and the flat sample count of the
decoded float array. -/
structure Decoded where
  channels : Nat
  frame_rate : Nat
  sample_width : Nat
  duration_ms : Nat
  num_samples : Nat
  deriving DecidableEq, Repr

/-- `AudioService.load_and_play` (lines 112-180), with the external
decoder and output device as inputs.  Mirrors the source order: `stop()`
first, then `set_playlist_from_folder`, then inside the `try` block
`current_file` is set, the decode happens (`decoded = none` models the
raise), the metadata and playhead are installed, and finally the device
stream is opened (`device_open_ok = false` models the raise) and the
playing flags set.  Returns the boolean result and the new state. -/
def load_and_play (s : AudioState) (file_path abs_path folder : String)
    (listing : Option (List String)) (decoded : Option Decoded)
    (device_open_ok : Bool) : Bool × AudioState :=
  let s1 := stop s
  let s2 := set_playlist_from_folder s1 file_path folder listing
  let s3 := { s2 with current_file := some abs_path }
  match decoded with
  | none => (false, s3)
  | some d =>
    let s4 := { s3 with
      channels := d.channels
      frame_rate := d.frame_rate
      sample_width := d.sample_width
      duration_s := (d.duration_ms : ℚ) / 1000
      bytes_per_frame := d.channels * d.sample_width
      total_frames := d.num_samples / d.channels
      playhead_frames := 0
      callback_stop_event := false }
    if device_open_ok then
      (true, { s4 with audio_stream_open := true, is_playing := true,
                       is_paused := false })
    else (false, s4)

/-- PyAudio stream-continuation flags. -/
inductive PaFlag
  | paContinue
  | paComplete
  deriving DecidableEq, Repr

/-- `AudioService._audio_callback` (lines 249-337).  Returns the new
state, the continuation flag, and whether the registered track-finished
callback was invoked during this call.  The produced audio bytes are not
modelled (the verified claims concern the playhead, the flags and the
completion signal). -/
def audio_callback (s : AudioState) (frame_count : Nat) :
    AudioState × PaFlag × Bool :=
  if s.callback_stop_event then (s, PaFlag.paComplete, false)
  else if s.is_paused then (s, PaFlag.paContinue, false)
  else
    let frames_left : Int := (s.total_frames : Int) - (s.playhead_frames : Int)
    if frames_left ≤ 0 then
      ({ s with is_playing := false }, PaFlag.paComplete,
        s.auto_advance && s.has_track_finished_callback)
    else
      let frames_to_read := min frame_count (s.total_frames - s.playhead_frames)
      let s' := { s with playhead_frames := s.playhead_frames + frames_to_read }
      if frames_to_read < frame_count then
        ({ s' with is_playing := false }, PaFlag.paComplete,
          s.auto_advance && s.has_track_finished_callback)
      else (s', PaFlag.paContinue, false)

/-- Simulates the PyAudio host invoking `_audio_callback` for up to `n`
buffer periods of `frame_count` frames each.  Per the PyAudio contract,
once the callback returns `paComplete` the stream finishes and the host
makes no further invocations.  Returns the final state and the number of
track-finished-callback invocations over the run. -/
def run_callbacks (frame_count : Nat) : Nat → AudioState → AudioState × Nat
  | 0, s => (s, 0)
  | n + 1, s =>
    match audio_callback s frame_count with
    | (s', PaFlag.paComplete, fired) => (s', if fired then 1 else 0)
    | (s', PaFlag.paContinue, fired) =>
      let r := run_callbacks frame_count n s'
      (r.1, (if fired then 1 else 0) + r.2)

/-- The list comprehension in `get_next_track` / `get_previous_track`
(lines 649, 668): `[track for i, track in enumerate(self.playlist) if
i != self.current_track_index]`, with `i` counting from the second
argument. -/
def availableTracksAux (cur : Nat) : Nat → List String → List String
  | _, [] => []
  | i, t :: rest =>
    if i ≠ cur then t :: availableTracksAux cur (i + 1) rest
    else availableTracksAux cur (i + 1) rest

/-- The candidate set shuffle navigation draws from: every playlist entry
whose index differs from `current_track_index`. -/
def availableTracks (s : AudioState) : List String :=
  availableTracksAux s.current_track_index 0 s.playlist

/-- `AudioService.get_next_track` (lines 642-659).  `r` models the
environment's `random.choice` pick: the chosen element is
`available_tracks[r % len(available_tracks)]` (every element is reachable
for some `r`, and the theorems hold for every `r`).  Returns the chosen
path (with `none` for an empty playlist) and the new state. -/
def get_next_track (s : AudioState) (r : Nat) : Option String × AudioState :=
  if s.playlist = [] then (none, s)
  else if s.shuffle_enabled then
    let available := availableTracks s
    if available = [] then (s.playlist.get? 0, s)
    else
      let next := available.getD (r % available.length) ""
      (some next, { s with current_track_index := s.playlist.indexOf next })
  else
    let idx := (s.current_track_index + 1) % s.playlist.length
    (s.playlist.get? idx, { s with current_track_index := idx })

/-- `AudioService.get_previous_track` (lines 661-678).  Sequential mode
uses Python's nonnegative `%` on `current_track_index - 1`, modelled with
`Int.emod`. -/
def get_previous_track (s : AudioState) (r : Nat) : Option String × AudioState :=
  if s.playlist = [] then (none, s)
  else if s.shuffle_enabled then
    let available := availableTracks s
    if available = [] then (s.playlist.get? 0, s)
    else
      let prev := available.getD (r % available.length) ""
      (some prev, { s with current_track_index := s.playlist.indexOf prev })
  else
    let idx := (((s.current_track_index : Int) - 1) % (s.playlist.length : Int)).toNat
    (s.playlist.get? idx, { s with current_track_index := idx })

/-! ## Helper lemmas -/

theorem stop_playhead_eq (s : AudioState) : (stop s).playhead_frames = s.playhead_frames := by
  unfold stop; split <;> rfl

theorem stop_flags (s : AudioState) :
    (stop s).is_playing = false ∧ (stop s).is_paused = false := by
  unfold stop
  rcases hp : s.is_playing with _ | _ <;> rcases hq : s.is_paused with _ | _ <;>
    simp [hp, hq]

theorem set_playlist_playhead_eq (s : AudioState) (file_path folder : String)
    (listing : Option (List String)) :
    (set_playlist_from_folder s file_path folder listing).playhead_frames = s.playhead_frames := by
  unfold set_playlist_from_folder
  split
  · cases listing <;> rfl
  · rfl

theorem set_playlist_flags_eq (s : AudioState) (file_path folder : String)
    (listing : Option (List String)) :
    (set_playlist_from_folder s file_path folder listing).is_playing = s.is_playing ∧
      (set_playlist_from_folder s file_path folder listing).is_paused = s.is_paused := by
  unfold set_playlist_from_folder
  split
  · cases listing <;> exact ⟨rfl, rfl⟩
  · exact ⟨rfl, rfl⟩

/-! ## Claim theorems -/

/-- An engine state that is mid-playback, used to exhibit behaviour of
`stop` and `load_and_play` on a concrete prior state. -/
def playingState : AudioState :=
  { initialState with
      current_file := some "/music/old.mp3"
      current_folder := some "/music"
      playlist := ["/music/old.mp3"]
      is_playing := true
      audio_stream_open := true
      total_frames := 441000
      playhead_frames := 4410
      duration_s := 10
      visualizer_data := 1 :: List.replicate 49 0 }

/-- C3 (counterexample): `stop()` does not reset `playhead_frames` to 0 —
from a playing state with playhead 4410, the playhead is still 4410 after
`stop()`.  (Only `load_and_play` resets the playhead.) -/
theorem stop_counterexample :
    playingState.is_playing = true ∧ (stop playingState).playhead_frames ≠ 0 := by
  decide

/-- C3 (amended): for every state in which playback is active or paused,
`stop()` signals the callback to halt, closes the device stream, clears
the playing/paused flags and zeroes all 50 entries of the visualization
buffer, while leaving `playhead_frames` unchanged; and `stop` is
idempotent — a second call from the resulting state changes nothing. -/
theorem stop_halts_and_idempotent (s : AudioState)
    (h : s.is_playing = true ∨ s.is_paused = true) :
    (stop s).callback_stop_event = true ∧
    (stop s).audio_stream_open = false ∧
    (stop s).is_playing = false ∧
    (stop s).is_paused = false ∧
    (stop s).visualizer_data = List.replicate 50 0 ∧
    (stop s).playhead_frames = s.playhead_frames ∧
    stop (stop s) = stop s := by
  have hg : (s.is_playing || s.is_paused) = true := by
    rcases h with h | h <;> simp [h]
  unfold stop
  simp [hg]

/-- Witness for C3's amended theorem at the concrete playing state. -/
theorem stop_halts_witness :
    (stop playingState).callback_stop_event = true ∧
    (stop playingState).audio_stream_open = false ∧
    (stop playingState).is_playing = false ∧
    (stop playingState).is_paused = false ∧
    (stop playingState).visualizer_data = List.replicate 50 0 ∧
    (stop playingState).playhead_frames = playingState.playhead_frames ∧
    stop (stop playingState) = stop playingState :=
  stop_halts_and_idempotent playingState (Or.inl rfl)

/-- C9: `set_volume` stores `max(0, min(200, volume))`: the stored volume
is always in [0,200], in-range inputs are stored unchanged, and the two
documented examples hold for every prior state. -/
theorem set_volume_clamps (s : AudioState) (x : Int) :
    0 ≤ (set_volume s x).volume ∧
    (set_volume s x).volume ≤ 200 ∧
    (0 ≤ x → x ≤ 200 → (set_volume s x).volume = x) ∧
    (set_volume s (-50)).volume = 0 ∧
    (set_volume s 500).volume = 200 := by
  simp only [set_volume]
  refine ⟨?_, ?_, fun h1 h2 => ?_, ?_, ?_⟩ <;> omega

/-- Witness for C9 at a concrete state and input. -/
theorem set_volume_witness :
    0 ≤ (set_volume initialState 42).volume ∧
      (set_volume initialState 42).volume = 42 := by
  have h := set_volume_clamps initialState 42
  exact ⟨h.1, h.2.2.1 (by decide) (by decide)⟩

/-- C10: with an empty playlist, both `get_next_track` and
`get_previous_track` return `None` and leave the whole state (in
particular `current_track_index` and the playlist) unchanged, for either
shuffle setting and any random pick. -/
theorem empty_playlist_nav (s : AudioState) (r : Nat) (h : s.playlist = []) :
    get_next_track s r = (none, s) ∧ get_previous_track s r = (none, s) := by
  refine ⟨?_, ?_⟩
  · unfold get_next_track; simp [h]
  · unfold get_previous_track; simp [h]

/-- Witness for C10 at the freshly initialized state (empty playlist). -/
theorem empty_playlist_nav_witness :
    get_next_track initialState 0 = (none, initialState) ∧
      get_previous_track initialState 0 = (none, initialState) :=
  empty_playlist_nav initialState 0 rfl

/-- C7: with shuffle disabled and a non-empty playlist, `get_next_track`
advances `current_track_index` by 1 modulo the playlist length and
returns the track stored at the new index. -/
theorem get_next_track_sequential (s : AudioState) (r : Nat)
    (hsh : s.shuffle_enabled = false) (hne : s.playlist ≠ []) :
    (get_next_track s r).1 =
      s.playlist.get? ((s.current_track_index + 1) % s.playlist.length) ∧
    (get_next_track s r).2 =
      { s with current_track_index :=
          (s.current_track_index + 1) % s.playlist.length } := by
  unfold get_next_track
  simp [hsh, hne]

/-- A sequential playlist `[a, b, c]` positioned at index 0. -/
def seqState : AudioState :=
  { initialState with playlist := ["a", "b", "c"], current_track_index := 0 }

/-- Witness for C7: applies the theorem at the `[a,b,c]` playlist, and
checks the documented three-call chain `b, c, a` concretely. -/
theorem get_next_track_sequential_witness :
    ((get_next_track seqState 0).1 =
        seqState.playlist.get?
          ((seqState.current_track_index + 1) % seqState.playlist.length)) ∧
    (get_next_track seqState 0).1 = some "b" ∧
    (get_next_track (get_next_track seqState 0).2 0).1 = some "c" ∧
    (get_next_track (get_next_track (get_next_track seqState 0).2 0).2 0).1 =
      some "a" :=
  ⟨(get_next_track_sequential seqState 0 rfl (by decide)).1, by decide, by decide,
    by decide⟩

/-- C1 (counterexample): `load_and_play` does not leave the state
unchanged on a decode failure.  From the concrete playing state, loading
a file whose decode raises returns `false`, yet `current_file` has been
replaced with the new path and the previously playing engine has been
stopped. -/
theorem load_and_play_counterexample :
    (load_and_play playingState "/music/new.mp3" "/music/new.mp3" "/music"
        (some ["new.mp3", "old.mp3"]) none true).1 = false ∧
    (load_and_play playingState "/music/new.mp3" "/music/new.mp3" "/music"
        (some ["new.mp3", "old.mp3"]) none true).2.current_file ≠
      playingState.current_file ∧
    (load_and_play playingState "/music/new.mp3" "/music/new.mp3" "/music"
        (some ["new.mp3", "old.mp3"]) none true).2.is_playing ≠
      playingState.is_playing := by
  decide

/-- C1 (amended): when the decode or the device open fails,
`load_and_play` returns `false` and never raises, but the state is not
restored: any previous playback has already been stopped (flags cleared),
`current_file` already holds the new absolute path, and the playlist may
have been rebuilt.  On a decode failure the playhead keeps its prior
value (it is reset only after a successful decode). -/
theorem load_and_play_failure (s : AudioState) (file_path abs_path folder : String)
    (listing : Option (List String)) (decoded : Option Decoded)
    (device_open_ok : Bool) (hfail : decoded = none ∨ device_open_ok = false) :
    (load_and_play s file_path abs_path folder listing decoded device_open_ok).1 =
      false ∧
    (load_and_play s file_path abs_path folder listing decoded
        device_open_ok).2.current_file = some abs_path ∧
    (load_and_play s file_path abs_path folder listing decoded
        device_open_ok).2.is_playing = false ∧
    (load_and_play s file_path abs_path folder listing decoded
        device_open_ok).2.is_paused = false ∧
    (decoded = none →
      (load_and_play s file_path abs_path folder listing decoded
          device_open_ok).2.playhead_frames = s.playhead_frames) := by
  have hfl := set_playlist_flags_eq (stop s) file_path folder listing
  have hfl1 := hfl.1.trans (stop_flags s).1
  have hfl2 := hfl.2.trans (stop_flags s).2
  have hph := (set_playlist_playhead_eq (stop s) file_path folder
    listing).trans (stop_playhead_eq s)
  rcases hfail with rfl | rfl
  · exact ⟨rfl, rfl, hfl1, hfl2, fun _ => hph⟩
  · cases decoded with
    | none => exact ⟨rfl, rfl, hfl1, hfl2, fun _ => hph⟩
    | some d => exact ⟨rfl, rfl, hfl1, hfl2, fun hc => nomatch hc⟩

/-- Witness for C1's amended theorem at the concrete playing state with a
failing decode. -/
theorem load_and_play_failure_witness :
    (load_and_play playingState "/music/new.mp3" "/music/new.mp3" "/music"
        (some ["new.mp3", "old.mp3"]) none true).1 = false ∧
    (load_and_play playingState "/music/new.mp3" "/music/new.mp3" "/music"
        (some ["new.mp3", "old.mp3"]) none true).2.current_file =
      some "/music/new.mp3" ∧
    (load_and_play playingState "/music/new.mp3" "/music/new.mp3" "/music"
        (some ["new.mp3", "old.mp3"]) none true).2.is_playing = false ∧
    (load_and_play playingState "/music/new.mp3" "/music/new.mp3" "/music"
        (some ["new.mp3", "old.mp3"]) none true).2.is_paused = false ∧
    (load_and_play playingState "/music/new.mp3" "/music/new.mp3" "/music"
        (some ["new.mp3", "old.mp3"]) none true).2.playhead_frames =
      playingState.playhead_frames := by
  have h := load_and_play_failure playingState "/music/new.mp3" "/music/new.mp3"
    "/music" (some ["new.mp3", "old.mp3"]) none true (Or.inl rfl)
  exact ⟨h.1, h.2.1, h.2.2.1, h.2.2.2.1, h.2.2.2.2 rfl⟩

/-- C5: during uninterrupted playback (no stop requested), a single
callback invocation never decreases `playhead_frames` and never pushes it
past `total_frames`; it advances the playhead by exactly
`min(frame_count, total_frames - playhead_frames)` when frames remain and
playback is not paused, and by 0 when paused or when no frames remain. -/
theorem playhead_monotone_step (s : AudioState) (frame_count : Nat)
    (hstop : s.callback_stop_event = false)
    (hinv : s.playhead_frames ≤ s.total_frames) :
    s.playhead_frames ≤ (audio_callback s frame_count).1.playhead_frames ∧
    (audio_callback s frame_count).1.playhead_frames ≤ s.total_frames ∧
    (audio_callback s frame_count).1.total_frames = s.total_frames ∧
    (s.is_paused = false → s.playhead_frames < s.total_frames →
      (audio_callback s frame_count).1.playhead_frames =
        s.playhead_frames + min frame_count (s.total_frames - s.playhead_frames)) ∧
    ((s.is_paused = true ∨ s.total_frames ≤ s.playhead_frames) →
      (audio_callback s frame_count).1.playhead_frames = s.playhead_frames) := by
  unfold audio_callback
  rcases hp : s.is_paused with _ | _
  · simp only [hstop, hp, Bool.false_eq_true, if_false]
    by_cases h1 : (s.total_frames : Int) - (s.playhead_frames : Int) ≤ 0
    · rw [if_pos h1]
      dsimp only
      exact ⟨le_refl _, hinv, rfl, fun _ h2 => by omega, fun _ => rfl⟩
    · rw [if_neg h1]
      by_cases h2 : min frame_count (s.total_frames - s.playhead_frames) < frame_count
      · rw [if_pos h2]
        dsimp only
        refine ⟨Nat.le_add_right _ _, by omega, rfl, fun _ _ => rfl, fun hcon => ?_⟩
        rcases hcon with hcon | hcon
        · exact nomatch hcon
        · omega
      · rw [if_neg h2]
        dsimp only
        refine ⟨Nat.le_add_right _ _, by omega, rfl, fun _ _ => rfl, fun hcon => ?_⟩
        rcases hcon with hcon | hcon
        · exact nomatch hcon
        · omega
  · simp only [hstop, hp, Bool.false_eq_true, if_false]
    rw [if_pos trivial]
    exact ⟨le_refl _, hinv, rfl, fun hc _ => Bool.noConfusion hc, fun _ => rfl⟩

/-- Witness for C5 at the concrete mid-playback state. -/
theorem playhead_monotone_step_witness :
    playingState.playhead_frames ≤
      (audio_callback playingState 2048).1.playhead_frames ∧
    (audio_callback playingState 2048).1.playhead_frames ≤
      playingState.total_frames ∧
    (audio_callback playingState 2048).1.playhead_frames =
      playingState.playhead_frames +
        min 2048 (playingState.total_frames - playingState.playhead_frames) := by
  have h := playhead_monotone_step playingState 2048 rfl (by decide)
  exact ⟨h.1, h.2.1, h.2.2.2.1 rfl (by decide)⟩

/-- The decode result of a 2-second 44100 Hz stereo 16-bit track: pydub
reports 2000 ms and the decoded flat float array holds 176400 samples
(88200 frames × 2 channels). -/
def twoSecondTrack : Decoded :=
  { channels := 2
    frame_rate := 44100
    sample_width := 2
    duration_ms := 2000
    num_samples := 176400 }

/-- The engine state right after a track-finished callback was registered
and the 2-second track was successfully loaded. -/
def c4Loaded : AudioState :=
  (load_and_play (set_track_finished_callback initialState true)
    "/music/t.mp3" "/music/t.mp3" "/music" (some ["t.mp3"])
    (some twoSecondTrack) true).2

/-- C4: after loading the 2-second stereo track (88200 frames) and
simulating 50 host invocations of the audio callback requesting 2048
frames each (the host stops invoking once the callback signals
completion, per the PyAudio contract), the playhead has reached the total
frame count, `is_playing` is false, and the track-finished callback fired
exactly once over the whole run. -/
theorem end_to_end_playback :
    c4Loaded.total_frames = 88200 ∧
    88200 ≤ (run_callbacks 2048 50 c4Loaded).1.playhead_frames ∧
    (run_callbacks 2048 50 c4Loaded).1.is_playing = false ∧
    (run_callbacks 2048 50 c4Loaded).2 = 1 := by
  decide

theorem availableTracksAux_high (cur : Nat) :
    ∀ (l : List String) (i : Nat), cur < i → availableTracksAux cur i l = l := by
  intro l
  induction l with
  | nil => intro i _; rfl
  | cons t rest ih =>
    intro i hi
    unfold availableTracksAux
    rw [if_pos (by omega), ih (i + 1) (by omega)]

theorem availableTracksAux_eraseIdx (cur : Nat) :
    ∀ (l : List String) (i : Nat), i ≤ cur →
      availableTracksAux cur i l = l.eraseIdx (cur - i) := by
  intro l
  induction l with
  | nil => intro i _; rfl
  | cons t rest ih =>
    intro i hi
    by_cases hic : i = cur
    · subst hic
      unfold availableTracksAux
      rw [if_neg (by omega), availableTracksAux_high i rest (i + 1) (by omega)]
      simp [Nat.sub_self]
    · unfold availableTracksAux
      rw [if_pos (by omega), ih (i + 1) (by omega)]
      have hsub : cur - i = (cur - (i + 1)) + 1 := by omega
      rw [hsub]
      rfl

/-- The shuffle candidate set is the playlist with the entry at the
current index removed. -/
theorem availableTracks_eq_eraseIdx (s : AudioState) :
    availableTracks s = s.playlist.eraseIdx s.current_track_index := by
  have h := availableTracksAux_eraseIdx s.current_track_index s.playlist 0
    (Nat.zero_le _)
  simpa using h

/-- C6: for a playlist of at least two distinct paths and a valid current
index, `get_next_track` with shuffle enabled draws from exactly the
tracks at indices other than the current one, and therefore never
returns the current track's path, whatever the random pick `r`. -/
theorem get_next_track_shuffle (s : AudioState) (r : Nat)
    (hsh : s.shuffle_enabled = true) (hlen : 2 ≤ s.playlist.length)
    (hidx : s.current_track_index < s.playlist.length)
    (hnd : s.playlist.Nodup) :
    availableTracks s = s.playlist.eraseIdx s.current_track_index ∧
    ∃ t, (get_next_track s r).1 = some t ∧
      t ∈ s.playlist.eraseIdx s.current_track_index ∧
      t ≠ s.playlist.getD s.current_track_index "" := by
  have hav := availableTracks_eq_eraseIdx s
  refine ⟨hav, ?_⟩
  have hne : s.playlist ≠ [] := by
    intro h; rw [h] at hlen; simp at hlen
  have hlenav : (availableTracks s).length = s.playlist.length - 1 := by
    rw [hav, List.length_eraseIdx_of_lt hidx]
  have havlen : 0 < (availableTracks s).length := by omega
  have havne : availableTracks s ≠ [] := by
    intro h; rw [h] at havlen; simp at havlen
  have hmod : r % (availableTracks s).length < (availableTracks s).length :=
    Nat.mod_lt _ havlen
  have hred : (get_next_track s r).1 =
      some ((availableTracks s).getD (r % (availableTracks s).length) "") := by
    unfold get_next_track
    rw [if_neg hne, hsh, if_pos rfl]
    simp only [if_neg havne]
  refine ⟨(availableTracks s).getD (r % (availableTracks s).length) "", hred, ?_, ?_⟩
  · rw [← hav]
    rw [List.getD_eq_getElem _ _ hmod]
    exact List.getElem_mem _
  · rw [List.getD_eq_getElem _ _ hmod]
    intro heq
    rw [List.getD_eq_getElem _ _ hidx] at heq
    have hmem : (availableTracks s)[r % (availableTracks s).length] ∈
        s.playlist.eraseIdx s.current_track_index := by
      rw [← hav]; exact List.getElem_mem _
    obtain ⟨i, hi, hic, hgi⟩ := List.mem_eraseIdx_iff_getElem.mp hmem
    have hinj := List.nodup_iff_injective_getElem.mp hnd
    have hfin : (⟨i, hi⟩ : Fin s.playlist.length) = ⟨s.current_track_index, hidx⟩ :=
      hinj (hgi.trans heq)
    exact hic (congrArg Fin.val hfin)

/-- A two-track shuffled playlist positioned at index 0. -/
def shuffleState : AudioState :=
  { initialState with
      playlist := ["a", "b"], current_track_index := 0, shuffle_enabled := true }

/-- Witness for C6 at the two-track playlist with pick 7. -/
theorem get_next_track_shuffle_witness :
    availableTracks shuffleState =
      shuffleState.playlist.eraseIdx shuffleState.current_track_index ∧
    ∃ t, (get_next_track shuffleState 7).1 = some t ∧
      t ∈ shuffleState.playlist.eraseIdx shuffleState.current_track_index ∧
      t ≠ shuffleState.playlist.getD shuffleState.current_track_index "" :=
  get_next_track_shuffle shuffleState 7 rfl (by decide) (by decide) (by decide)

/-- One sample of `AudioService._from_24bit_to_float` (audio_service.py
lines 572-589; the identical algorithm appears as
`AudioPlayer._from_24bit_buffer_to_float32`, AudioPlayer.py lines
118-146): the three little-endian PCM bytes are copied into the low three
bytes of a four-byte word, the fourth byte is `0xFF` exactly when bit 7
of the most significant of the three bytes is set (`(b2 & 0x80) != 0`),
and the word is reinterpreted as a signed little-endian 32-bit integer.
The final `astype(float32)` is exact on this range, so the sample is
modelled by its `Int` value. -/
def from_24bit_sample (b0 b1 b2 : Nat) : Int :=
  let b3 : Nat := if b2 &&& 0x80 ≠ 0 then 0xFF else 0x00
  let word : Nat := b0 + b1 * 2 ^ 8 + b2 * 2 ^ 16 + b3 * 2 ^ 24
  if word < 2 ^ 31 then (word : Int) else (word : Int) - 2 ^ 32

/-- `_from_24bit_to_float` over a raw byte buffer: each group of three
bytes is one sample (`sample_count = len(data_chunk) // 3`; trailing
bytes beyond a multiple of three are dropped by the reshape). -/
def from_24bit_to_float : List Nat → List Int
  | b0 :: b1 :: b2 :: rest => from_24bit_sample b0 b1 b2 :: from_24bit_to_float rest
  | _ => []

/-- The reference little-endian 3-byte PCM encoding of a sample value in
[-2^23, 2^23-1]: the three base-256 digits of the value mod 2^24. -/
def encode24 (v : Int) : Nat × Nat × Nat :=
  let u := (v % 2 ^ 24).toNat
  (u % 2 ^ 8, u / 2 ^ 8 % 2 ^ 8, u / 2 ^ 16 % 2 ^ 8)

set_option maxRecDepth 2048 in
theorem land128_iff : ∀ b < 256, (b &&& 128 = 0 ↔ b < 128) := by decide

theorem from_24bit_encode (u : Nat) (hu : u < 2 ^ 24) :
    from_24bit_sample (u % 2 ^ 8) (u / 2 ^ 8 % 2 ^ 8) (u / 2 ^ 16 % 2 ^ 8) =
      if u < 2 ^ 23 then (u : Int) else (u : Int) - 2 ^ 24 := by
  have hb2lt : u / 2 ^ 16 % 2 ^ 8 < 256 := by omega
  simp only [from_24bit_sample]
  by_cases hu23 : u < 2 ^ 23
  · have hz : (u / 2 ^ 16 % 2 ^ 8) &&& 128 = 0 :=
      (land128_iff _ hb2lt).mpr (by omega)
    rw [if_neg (not_not_intro hz)]
    rw [if_pos (by omega), if_pos hu23]
    omega
  · have hnz : ¬ ((u / 2 ^ 16 % 2 ^ 8) &&& 128 = 0) := by
      intro hz
      exact absurd ((land128_iff _ hb2lt).mp hz) (by omega)
    rw [if_pos hnz]
    rw [if_neg (by omega), if_neg hu23]
    omega

/-- C2: for every sample value `v ∈ [-2^23, 2^23-1]`, decoding the
little-endian 3-byte PCM encoding of `v` with the 24-bit converter yields
exactly `v`: the sign extension (fourth byte `0xFF` exactly when bit 7 of
the most significant byte is set) makes the int32 reinterpretation equal
to `v`. -/
theorem from_24bit_roundtrip (v : Int) (hlo : -(2 ^ 23) ≤ v) (hhi : v < 2 ^ 23) :
    from_24bit_sample (encode24 v).1 (encode24 v).2.1 (encode24 v).2.2 = v := by
  have hnn : 0 ≤ v % 2 ^ 24 := Int.emod_nonneg v (by norm_num)
  have hcast : (((v % 2 ^ 24).toNat : Int)) = v % 2 ^ 24 :=
    Int.toNat_of_nonneg hnn
  simp only [encode24]
  rw [from_24bit_encode _ (by omega)]
  split_ifs with hb <;> omega

set_option maxRecDepth 8192 in
/-- Witness for C2: the documented byte examples — `FF FF 80` decodes to
the large negative value -8323073 (whose reference encoding it is), and
`00 00 7F` decodes to the positive 8323072 — with the round-trip theorem
applied at -8323073. -/
theorem from_24bit_roundtrip_witness :
    from_24bit_sample 0xFF 0xFF 0x80 = -8323073 ∧
    from_24bit_sample 0x00 0x00 0x7F = 8323072 ∧
    encode24 (-8323073) = (0xFF, 0xFF, 0x80) ∧
    from_24bit_sample (encode24 (-8323073)).1 (encode24 (-8323073)).2.1
      (encode24 (-8323073)).2.2 = -8323073 :=
  ⟨by decide, by decide, by decide,
    from_24bit_roundtrip (-8323073) (by decide) (by decide)⟩

/-!
## Spectrum analysis loop

`AudioService._analysis_loop` (lines 449-528), one iteration per dequeued
chunk.  The FFT itself is the external pyFFTW collaborator; an iteration
is modelled from the point where the 50 magnitude bins
`bins_50 = np.abs(spectrum)[indices]` are available (`np.abs` makes them
non-negative, which the theorems take as a hypothesis).  Python floats
are modelled as exact rationals, so every value is finite by
construction; the float-specific NaN hazard (division by zero) is ruled
out by `effective_max ≥ baseline_value > 0`.
-/

/-- `alpha = 0.88`, smoothing factor for `persistent_max` (line 452). -/
def alpha : ℚ := 88 / 100

/-- `noise_threshold = 1e-1` (line 453). -/
def noise_threshold : ℚ := 1 / 10

/-- `baseline_value = 1e-3` (line 456). -/
def baseline_value : ℚ := 1 / 1000

/-- `self.smoothing = 0.3` (`__init__`, line 79). -/
def smoothing : ℚ := 3 / 10

/-- `self.bass_boost = 2.1` (`__init__`, line 80). -/
def bass_boost : ℚ := 21 / 10

/-- `self.beat_threshold = 0.6` (`__init__`, line 81). -/
def beat_threshold : ℚ := 6 / 10

/-- The analyzer-owned state: the normalization envelope
`persistent_max`, the previous smoothed spectrum `last_spectrum`, and the
published visualization buffer (`visualizer_data`, written under lock). -/
structure AnalysisState where
  persistent_max : ℚ
  last_spectrum : List ℚ
  visualizer_out : List ℚ
  deriving DecidableEq, Repr

/-- `np.max` of a nonempty list (0 for the empty list, which the loop
never reaches: empty chunks are skipped at line 465). -/
def npMax : List ℚ → ℚ
  | [] => 0
  | [x] => x
  | x :: y :: rest => max x (npMax (y :: rest))

/-- `np.mean`. -/
def npMean (l : List ℚ) : ℚ := l.sum / l.length

/-- Lines 491-496: fast attack (jump to a louder `current_max`) / slow
release (exponential decay towards a quieter one). -/
def updatePersistentMax (pm current_max : ℚ) : ℚ :=
  if current_max > pm then current_max
  else alpha * pm + (1 - alpha) * current_max

/-- Line 499: `effective_max = max(persistent_max, baseline_value)`. -/
def effectiveMax (pm : ℚ) : ℚ := max pm baseline_value

/-- Lines 501-506: normalize by `effective_max` above the noise
threshold, else treat the chunk as silence. -/
def normalizeBins (pm : ℚ) (bins_50 : List ℚ) : List ℚ :=
  if effectiveMax pm > noise_threshold then
    bins_50.map (fun x => x / effectiveMax pm)
  else bins_50.map (fun _ => 0)

/-- Lines 510-511: `smoothed = bins_50*smoothing +
last_spectrum[:size]*(1-smoothing)`. -/
def smoothSpectrum (last : List ℚ) (bins : List ℚ) : List ℚ :=
  List.zipWith (fun b p => b * smoothing + p * (1 - smoothing))
    bins (last.take bins.length)

/-- Line 516: `smoothed[:15] *= self.bass_boost`, with the running numpy
index counted from the second argument. -/
def bassBoostAux : Nat → List ℚ → List ℚ
  | _, [] => []
  | i, x :: rest =>
    (if i < 15 then x * bass_boost else x) :: bassBoostAux (i + 1) rest

/-- Lines 520-521: `if np.mean(smoothed[:10]) > beat_threshold:
smoothed *= 1.24`. -/
def applyBeat (l : List ℚ) : List ℚ :=
  if npMean (l.take 10) > beat_threshold then l.map (fun x => x * (124 / 100))
  else l

/-- One iteration of `_analysis_loop` on the 50 magnitude bins of a
dequeued chunk: envelope update, normalization, smoothing (stored into
`last_spectrum` before the bass boost, as the numpy slice assignment at
line 513 copies the pre-boost values), bass boost, beat multiplier, and
publication into the visualization buffer with the remainder zeroed. -/
def analysisStep (st : AnalysisState) (bins_50 : List ℚ) : AnalysisState :=
  let pm := updatePersistentMax st.persistent_max (npMax bins_50)
  let bins := normalizeBins pm bins_50
  if bins_50.isEmpty then { st with persistent_max := pm }
  else
    let smoothed := smoothSpectrum st.last_spectrum bins
    let final := applyBeat (bassBoostAux 0 smoothed)
    { persistent_max := pm
      last_spectrum := smoothed ++ st.last_spectrum.drop smoothed.length
      visualizer_out := final ++ List.replicate (50 - final.length) 0 }

/-- The analyzer state when the thread starts: `persistent_max = 1e-6`,
zeroed `last_spectrum` and visualization buffer. -/
def initialAnalysisState : AnalysisState :=
  { persistent_max := 1 / 1000000
    last_spectrum := List.replicate 50 0
    visualizer_out := List.replicate 50 0 }

/-- The analysis loop over a whole sequence of dequeued chunks. -/
def analysisRun (chunks : List (List ℚ)) : AnalysisState :=
  chunks.foldl analysisStep initialAnalysisState

theorem npMax_nonneg (l : List ℚ) (h : ∀ x ∈ l, 0 ≤ x) : 0 ≤ npMax l := by
  induction l with
  | nil => exact le_refl 0
  | cons x rest ih =>
    cases rest with
    | nil => exact h x (by simp)
    | cons y t =>
      have hr : 0 ≤ npMax (y :: t) :=
        ih (fun z hz => h z (List.mem_cons_of_mem _ hz))
      exact le_trans hr (le_max_right _ _)

theorem updatePersistentMax_pos (pm cm : ℚ) (hpm : 0 < pm) (hcm : 0 ≤ cm) :
    0 < updatePersistentMax pm cm := by
  unfold updatePersistentMax alpha
  split_ifs with h
  · linarith
  · linarith

theorem baseline_le_effectiveMax (pm : ℚ) : baseline_value ≤ effectiveMax pm :=
  le_max_right _ _

theorem effectiveMax_pos (pm : ℚ) : 0 < effectiveMax pm :=
  lt_of_lt_of_le (by norm_num [baseline_value]) (baseline_le_effectiveMax pm)

theorem normalizeBins_nonneg (pm : ℚ) (bins_50 : List ℚ)
    (hb : ∀ x ∈ bins_50, 0 ≤ x) : ∀ x ∈ normalizeBins pm bins_50, 0 ≤ x := by
  unfold normalizeBins
  split_ifs with h
  · intro x hx
    obtain ⟨y, hy, rfl⟩ := List.mem_map.mp hx
    exact div_nonneg (hb y hy) (le_of_lt (effectiveMax_pos pm))
  · intro x hx
    obtain ⟨y, hy, rfl⟩ := List.mem_map.mp hx
    exact le_refl 0

theorem smoothSpectrum_nonneg (last bins : List ℚ)
    (hl : ∀ x ∈ last, 0 ≤ x) (hb : ∀ x ∈ bins, 0 ≤ x) :
    ∀ x ∈ smoothSpectrum last bins, 0 ≤ x := by
  unfold smoothSpectrum
  have htake : ∀ x ∈ last.take bins.length, 0 ≤ x :=
    fun x hx => hl x (List.mem_of_mem_take hx)
  generalize last.take bins.length = l2 at htake
  induction bins generalizing l2 with
  | nil => simp
  | cons a t ih =>
    cases l2 with
    | nil => simp
    | cons b u =>
      intro x hx
      rw [List.zipWith_cons_cons] at hx
      rcases List.mem_cons.mp hx with rfl | hx
      · have ha := hb a (by simp)
        have hbu := htake b (by simp)
        unfold smoothing
        nlinarith
      · exact ih (fun z hz => hb z (List.mem_cons_of_mem _ hz)) u
          (fun z hz => htake z (List.mem_cons_of_mem _ hz)) x hx

theorem bassBoostAux_nonneg (l : List ℚ) (h : ∀ x ∈ l, 0 ≤ x) :
    ∀ (i : Nat), ∀ x ∈ bassBoostAux i l, 0 ≤ x := by
  induction l with
  | nil => intro i x hx; simp [bassBoostAux] at hx
  | cons a t ih =>
    intro i x hx
    unfold bassBoostAux at hx
    rcases List.mem_cons.mp hx with rfl | hx
    · have ha := h a (by simp)
      split_ifs with hi
      · have : (0:ℚ) ≤ bass_boost := by norm_num [bass_boost]
        exact mul_nonneg ha this
      · exact ha
    · exact ih (fun z hz => h z (List.mem_cons_of_mem _ hz)) (i + 1) x hx

theorem applyBeat_nonneg (l : List ℚ) (h : ∀ x ∈ l, 0 ≤ x) :
    ∀ x ∈ applyBeat l, 0 ≤ x := by
  unfold applyBeat
  split_ifs with hbeat
  · intro x hx
    obtain ⟨y, hy, rfl⟩ := List.mem_map.mp hx
    exact mul_nonneg (h y hy) (by norm_num)
  · exact h

theorem analysisStep_invariant (st : AnalysisState) (bins_50 : List ℚ)
    (hb : ∀ x ∈ bins_50, 0 ≤ x)
    (hl : ∀ x ∈ st.last_spectrum, 0 ≤ x)
    (hv : ∀ x ∈ st.visualizer_out, 0 ≤ x)
    (hp : 0 < st.persistent_max) :
    0 < (analysisStep st bins_50).persistent_max ∧
    (∀ x ∈ (analysisStep st bins_50).last_spectrum, 0 ≤ x) ∧
    (∀ x ∈ (analysisStep st bins_50).visualizer_out, 0 ≤ x) := by
  have hpm : 0 < updatePersistentMax st.persistent_max (npMax bins_50) :=
    updatePersistentMax_pos _ _ hp (npMax_nonneg bins_50 hb)
  have hbins := normalizeBins_nonneg
    (updatePersistentMax st.persistent_max (npMax bins_50)) bins_50 hb
  have hsm := smoothSpectrum_nonneg st.last_spectrum
    (normalizeBins (updatePersistentMax st.persistent_max (npMax bins_50)) bins_50)
    hl hbins
  unfold analysisStep
  by_cases hemp : bins_50.isEmpty
  · rw [if_pos hemp]
    exact ⟨hpm, hl, hv⟩
  · rw [if_neg hemp]
    refine ⟨hpm, ?_, ?_⟩
    · intro x hx
      rcases List.mem_append.mp hx with hx | hx
      · exact hsm x hx
      · exact hl x (List.mem_of_mem_drop hx)
    · intro x hx
      rcases List.mem_append.mp hx with hx | hx
      · exact applyBeat_nonneg _ (bassBoostAux_nonneg _ hsm 0) x hx
      · rw [List.eq_of_mem_replicate hx]

theorem analysisFold_invariant (chunks : List (List ℚ)) :
    ∀ (st : AnalysisState), (∀ c ∈ chunks, ∀ x ∈ c, 0 ≤ x) →
      0 < st.persistent_max →
      (∀ x ∈ st.last_spectrum, 0 ≤ x) →
      (∀ x ∈ st.visualizer_out, 0 ≤ x) →
      0 < (chunks.foldl analysisStep st).persistent_max ∧
      (∀ x ∈ (chunks.foldl analysisStep st).last_spectrum, 0 ≤ x) ∧
      (∀ x ∈ (chunks.foldl analysisStep st).visualizer_out, 0 ≤ x) := by
  induction chunks with
  | nil => intro st _ h1 h2 h3; exact ⟨h1, h2, h3⟩
  | cons c cs ih =>
    intro st hc h1 h2 h3
    have hstep := analysisStep_invariant st c (hc c (by simp)) h2 h3 h1
    exact ih (analysisStep st c) (fun d hd => hc d (by simp [hd]))
      hstep.1 hstep.2.1 hstep.2.2

/-- C8: for every sequence of chunks whose magnitude bins are
non-negative (as `np.abs` guarantees), every value the analysis loop
publishes into the visualization buffer is non-negative (and, the floats
being modelled as exact rationals, finite): the normalization divisor is
at least the positive baseline, the envelope stays positive, and the
smoothing, bass-boost and beat multipliers preserve non-negativity —
including for all-zero chunks, which can never produce a negative entry
or a division by zero. -/
theorem analysis_publishes_nonneg (chunks : List (List ℚ))
    (h : ∀ c ∈ chunks, ∀ x ∈ c, 0 ≤ x) :
    0 < (analysisRun chunks).persistent_max ∧
    baseline_value ≤ effectiveMax (analysisRun chunks).persistent_max ∧
    (∀ x ∈ (analysisRun chunks).last_spectrum, 0 ≤ x) ∧
    (∀ x ∈ (analysisRun chunks).visualizer_out, 0 ≤ x) := by
  have H := analysisFold_invariant chunks initialAnalysisState h
    (by norm_num [initialAnalysisState])
    (by intro x hx; rw [List.eq_of_mem_replicate hx])
    (by intro x hx; rw [List.eq_of_mem_replicate hx])
  exact ⟨H.1, baseline_le_effectiveMax _, H.2.1, H.2.2⟩

/-- Witness for C8 on a run fed one all-zero chunk. -/
theorem analysis_publishes_nonneg_witness :
    0 < (analysisRun [[0]]).persistent_max ∧
    baseline_value ≤ effectiveMax (analysisRun [[0]]).persistent_max ∧
    (∀ x ∈ (analysisRun [[0]]).last_spectrum, 0 ≤ x) ∧
    (∀ x ∈ (analysisRun [[0]]).visualizer_out, 0 ≤ x) :=
  analysis_publishes_nonneg [[0]] (by decide)

end Flex
